import Mathlib

/-!
Verification of the CalCS expression/visualization pipeline (src/main.py and
src/run_app.py) against its specification.

The program is a linear script: it parses a user string into a symbolic
expression, derives a numeric evaluator for the function and its derivative,
samples both over a fixed 400-point grid, computes two one-sided limits,
and drives a secant-to-tangent animation.  The external symbolic engine
(sympy) and the UI framework (streamlit) are black boxes; where their
behaviour decides a property, they are modelled from the specification and
the model is marked as such in the doc comment.  Machine floating point is
idealized as exact rational arithmetic.
-/

/-- Abstract syntax of symbolic expressions.  Modelled from the spec: the
external grammar (sympy's sympify, not part of this repository) produces an
expression tree with constants, named variables, arithmetic operations and
unary function applications; it accepts any free symbol, not only the
designated variable x. -/
inductive SymExpr where
  | const (q : ℚ)
  | var (name : String)
  | add (a b : SymExpr)
  | sub (a b : SymExpr)
  | mul (a b : SymExpr)
  | div (a b : SymExpr)
  | app (fn : String) (arg : SymExpr)
deriving DecidableEq

/-- Free symbols occurring in an expression (sympy's free_symbols). -/
def freeSymbols : SymExpr → List String
  | .const _ => []
  | .var n => [n]
  | .add a b => freeSymbols a ++ freeSymbols b
  | .sub a b => freeSymbols a ++ freeSymbols b
  | .mul a b => freeSymbols a ++ freeSymbols b
  | .div a b => freeSymbols a ++ freeSymbols b
  | .app _ a => freeSymbols a

/-- Numeric value produced by the vectorized evaluator.  Per the spec,
domain errors (division by zero, log of a negative, ...) propagate as
NaN/Inf values rather than raising; all such non-finite outcomes are
collapsed into the single constructor `nonfinite`. -/
inductive NumVal where
  | fl (q : ℚ)
  | nonfinite
deriving DecidableEq

/-- Addition on numeric values; any undefined operand is absorbing. -/
def NumVal.addV : NumVal → NumVal → NumVal
  | .fl a, .fl b => .fl (a + b)
  | _, _ => .nonfinite

/-- Subtraction on numeric values. -/
def NumVal.subV : NumVal → NumVal → NumVal
  | .fl a, .fl b => .fl (a - b)
  | _, _ => .nonfinite

/-- Multiplication on numeric values. -/
def NumVal.mulV : NumVal → NumVal → NumVal
  | .fl a, .fl b => .fl (a * b)
  | _, _ => .nonfinite

/-- Division on numeric values; division by zero yields `nonfinite`
(numpy emits inf/nan without raising). -/
def NumVal.divV : NumVal → NumVal → NumVal
  | .fl a, .fl b => if b = 0 then .nonfinite else .fl (a / b)
  | _, _ => .nonfinite

/-- Evaluation of the numeric callable produced by lambdify at a single
point.  Modelled from the spec: the callable binds only the designated
variable x; any other free symbol is unbound and raises at call time,
modelled as `none`.  `funcs` interprets named elementary functions
(sin, cos, ...) as total numeric functions. -/
def evalExpr (funcs : String → ℚ → ℚ) (xv : ℚ) : SymExpr → Option NumVal
  | .const q => some (.fl q)
  | .var n => if n = "x" then some (.fl xv) else none
  | .add a b =>
    match evalExpr funcs xv a, evalExpr funcs xv b with
    | some va, some vb => some (va.addV vb)
    | _, _ => none
  | .sub a b =>
    match evalExpr funcs xv a, evalExpr funcs xv b with
    | some va, some vb => some (va.subV vb)
    | _, _ => none
  | .mul a b =>
    match evalExpr funcs xv a, evalExpr funcs xv b with
    | some va, some vb => some (va.mulV vb)
    | _, _ => none
  | .div a b =>
    match evalExpr funcs xv a, evalExpr funcs xv b with
    | some va, some vb => some (va.divV vb)
    | _, _ => none
  | .app fn a =>
    match evalExpr funcs xv a with
    | some (.fl q) => some (.fl (funcs fn q))
    | some .nonfinite => some .nonfinite
    | none => none

/-- numpy.linspace lo hi n: n evenly spaced values from lo to hi inclusive,
idealized over the rationals. -/
def linspace (lo hi : ℚ) (n : ℕ) : List ℚ :=
  (List.range n).map (fun i : ℕ => lo + (hi - lo) * (i : ℚ) / ((n : ℚ) - 1))

/-- The sample grid of src/main.py line 45: np.linspace(-10, 10, 400). -/
def x_vals : List ℚ := linspace (-10) 10 400

/-- Elementwise evaluation of the numeric callable over a list of inputs;
fails (raises) as soon as any single evaluation fails. -/
def traverseEval (funcs : String → ℚ → ℚ) (e : SymExpr) : List ℚ → Option (List NumVal)
  | [] => some []
  | xv :: rest =>
    match evalExpr funcs xv e, traverseEval funcs e rest with
    | some v, some vs => some (v :: vs)
    | _, _ => none

/-- The vector of sample outputs of src/main.py line 46: y_vals = f(x_vals). -/
def y_vals (funcs : String → ℚ → ℚ) (e : SymExpr) : Option (List NumVal) :=
  traverseEval funcs e x_vals

/-- Result of the guarded parse/differentiate/vectorize block
(src/main.py lines 36-43): the parsed expression together with its
symbolic derivative. -/
structure Pipeline where
  expr : SymExpr
  dExpr : SymExpr
deriving DecidableEq

/-- The try block of src/main.py lines 36-43.  The grammar itself is a
black box, so its outcome is an input (`parseRes`); differentiation has no
declared error path in the spec and is a black-box total map `diffOracle`.
A parse failure is caught and converted to the inline error message. -/
def parseStage (diffOracle : SymExpr → SymExpr) (parseRes : Except String SymExpr) :
    Except String Pipeline :=
  match parseRes with
  | .error msg => .error ("Error parsing function: " ++ msg)
  | .ok e => .ok ⟨e, diffOracle e⟩

/-- The tangent line of src/main.py line 88:
tangent_line = f(a) + f_prime(a) * (x_vals - a), as a pointwise function.
`f` is the numeric callable for the expression and `fp` the numeric
callable for its symbolic derivative. -/
def tangent_line (f fp : ℚ → ℚ) (a xv : ℚ) : ℚ :=
  f a + fp a * (xv - a)

/-- The tangent overlay vector of src/main.py line 88 (the elementwise
image of the grid under the tangent line). -/
def tangentVals (f fp : ℚ → ℚ) (a : ℚ) : List ℚ :=
  x_vals.map (tangent_line f fp a)

/-- The animation step sizes of src/main.py line 128:
h_vals = np.linspace(1.0, 0.01, 20). -/
def h_vals : List ℚ := linspace 1 (1/100) 20

/-- One rendered animation frame: the step size, the secant slope drawn in
that frame, and the synchronous delay (time.sleep(0.2)) spent after
drawing it. -/
structure Frame where
  h : ℚ
  slope : ℚ
  delay : ℚ
deriving DecidableEq

/-- The animation loop body of src/main.py lines 129-143: for each h, with
x0 = a and x1 = a + h, the frame draws the secant of slope
(f(x1) - f(x0)) / (x1 - x0) and sleeps 0.2 time units. -/
def animationFrames (f : ℚ → ℚ) (a : ℚ) : List Frame :=
  h_vals.map (fun h => ⟨h, (f (a + h) - f a) / ((a + h) - a), 1/5⟩)

/-- The secant slope of src/main.py line 134 over the reals:
with x0 = a and x1 = a + h, slope = (f(x1) - f(x0)) / (x1 - x0). -/
noncomputable def secantSlope (f : ℝ → ℝ) (a h : ℝ) : ℝ :=
  (f (a + h) - f a) / ((a + h) - a)

/-- A concrete smooth test function t ↦ t^2 (t - 1/2)^2 over the
rationals, used to probe the behaviour of the animation's secant slopes. -/
def fC7 : ℚ → ℚ := fun t => t ^ 2 * (t - 1/2) ^ 2

/-- The same smooth test function over the reals. -/
noncomputable def fC7R : ℝ → ℝ := fun t => t ^ 2 * (t - 1/2) ^ 2

/-- Symbolic value returned by the limit engine (a black box): a finite
symbolic expression, or one of the engine's infinity objects.  Equality is
exact structural equality, matching the engine's == comparison. -/
inductive SymVal where
  | fin (e : SymExpr)
  | posInf
  | negInf
  | complexInf
deriving DecidableEq

/-- One rendered UI element of the script, in document order. -/
inductive Render where
  | pageConfig
  | title
  | aboutSection
  | sidebarInput
  | parseErrorMsg (msg : String)
  | uncaughtEvalException
  | conceptsHeader
  | limitExpander
  | derivativeExpander
  | secantExpander
  | tangentHeader
  | tangentPlot (a : ℚ)
  | derivExprText
  | derivValText (a : ℚ)
  | limitHeader
  | leftLimitLatex (v : SymVal)
  | rightLimitLatex (v : SymVal)
  | limitExists (v : SymVal)
  | limitNotExists
  | limitErrorMsg (msg : String)
  | animationHeader
  | animationFrame (h : ℚ)
  | problemSetHeader
  | realWorldHeader
deriving DecidableEq

/-- The renders emitted before the parse block: page config, title, the
About expander, and the sidebar input (src/main.py lines 8-34). -/
def preRenders : List Render :=
  [.pageConfig, .title, .aboutSection, .sidebarInput]

/-- The limit calculator body (src/main.py lines 110-122): on success it
renders both one-sided limits and then the verdict — success iff
lim_left == lim_right under exact structural equality; the except branch
renders the inline error message and falls through. -/
def limitSection (res : Except String (SymVal × SymVal)) : List Render :=
  match res with
  | .error msg => [.limitErrorMsg ("Limit error: " ++ msg)]
  | .ok (l, r) =>
    [.leftLimitLatex l, .rightLimitLatex r] ++
      (if l = r then [.limitExists l] else [.limitNotExists])

/-- Inputs of one full script rerun.  The black-box collaborators appear
as oracle inputs: `parseRes` is sympify's outcome on the entered text,
`funcs` interprets named functions numerically, `fnum` is the numeric
callable produced by lambdify, and `limitOracle` is the symbolic limit
engine (which may raise). -/
structure AppInput where
  parseRes : Except String SymExpr
  funcs : String → ℚ → ℚ
  fnum : ℚ → ℚ
  a : ℚ
  limitPoint : ℚ
  limitOracle : SymExpr → ℚ → Except String (SymVal × SymVal)
  runAnimation : Bool

/-- Result of one full script rerun: the ordered renders, and whether the
hosting process was terminated.  st.stop() and uncaught exceptions abort
only the rerun (the framework catches them); they never kill the process. -/
structure AppOutput where
  renders : List Render
  processTerminated : Bool
deriving DecidableEq

/-- One full top-to-bottom rerun of src/main.py.  A parse failure renders
the inline error and stops (st.stop()); an unbound symbol makes the grid
evaluation on line 46 raise an uncaught exception, also ending the rerun;
otherwise every section renders in document order, the limit section via
`limitSection` and the animation only when its button was pressed. -/
def runApp (inp : AppInput) : AppOutput :=
  match parseStage id inp.parseRes with
  | .error msg => ⟨preRenders ++ [.parseErrorMsg msg], false⟩
  | .ok p =>
    match y_vals inp.funcs p.expr with
    | none => ⟨preRenders ++ [.uncaughtEvalException], false⟩
    | some _ =>
      ⟨preRenders ++
        [.conceptsHeader, .limitExpander, .derivativeExpander, .secantExpander,
         .tangentHeader, .tangentPlot inp.a, .derivExprText, .derivValText inp.a,
         .limitHeader] ++
        limitSection (inp.limitOracle p.expr inp.limitPoint) ++
        [.animationHeader] ++
        (if inp.runAnimation then
          (animationFrames inp.fnum inp.a).map (fun fr => .animationFrame fr.h)
         else []) ++
        [.problemSetHeader, .realWorldHeader], false⟩

/-- A POSIX path is absolute when it begins with the separator. -/
def isAbsolutePath (s : String) : Bool :=
  match s.data with
  | [] => false
  | c :: _ => c = '/'

/-- POSIX os.path.join semantics (Python standard library, external to the
repository) for two components: when the second component is an absolute
path, the first component is discarded; otherwise the components are
joined with a separator. -/
def osPathJoin (a b : String) : String :=
  if isAbsolutePath b then b
  else if a = "" then b
  else if a.data.getLast? = some '/' then a ++ b
  else a ++ "/" ++ b

/-- The second argument passed to os.path.join in src/run_app.py line 6
(an absolute path literal). -/
def mainScriptArg : String := "/home/execu/Programming/CalCS/jb/main.py"

/-- The launcher's observable effects: the resolved script path, the
shell command handed to the server process, and the URL opened in the
browser. -/
structure LauncherEffects where
  appPath : String
  spawnCommand : String
  browserUrl : String
deriving DecidableEq

/-- src/run_app.py: resolve app_path = os.path.join(dirname(file),
mainScriptArg), spawn the hosting server with it, open the local
endpoint.  `scriptDir` is the directory containing the launcher. -/
def runLauncher (scriptDir : String) : LauncherEffects :=
  ⟨osPathJoin scriptDir mainScriptArg,
   "streamlit run \"" ++ osPathJoin scriptDir mainScriptArg ++ "\"",
   "http://localhost:8501"⟩

/-- The secant slopes drawn by the animation, in iteration order. -/
def animSlopes (f : ℚ → ℚ) (a : ℚ) : List ℚ :=
  (animationFrames f a).map Frame.slope

/-- A concrete rerun input whose function text failed to parse. -/
def exampleParseFailInput : AppInput :=
  ⟨Except.error "bad", fun _ q => q, fun q => q, 1, 1,
   fun _ _ => Except.error "e", false⟩

/-- A concrete rerun input for the identity expression whose limit engine
returns the pair (4, 4). -/
def exampleLimitOkInput : AppInput :=
  ⟨Except.ok (SymExpr.var "x"), fun _ q => q, fun q => q, 1, 1,
   fun _ _ => Except.ok (SymVal.fin (SymExpr.const 4), SymVal.fin (SymExpr.const 4)),
   false⟩

/-- A concrete rerun input for the identity expression whose limit engine
raises (e.g. oscillatory behaviour). -/
def exampleLimitErrInput : AppInput :=
  ⟨Except.ok (SymExpr.var "x"), fun _ q => q, fun q => q, 1, 1,
   fun _ _ => Except.error "osc", false⟩

theorem linspace_length (lo hi : ℚ) (n : ℕ) : (linspace lo hi n).length = n := by
  simp only [linspace, List.length_map, List.length_range]

theorem linspace_getElem (lo hi : ℚ) (n i : ℕ) (h : i < (linspace lo hi n).length) :
    (linspace lo hi n)[i] = lo + (hi - lo) * (i : ℚ) / ((n : ℚ) - 1) := by
  simp only [linspace, List.getElem_map, List.getElem_range]

theorem x_vals_length : x_vals.length = 400 := linspace_length (-10) 10 400

theorem x_vals_getElem (i : ℕ) (h : i < x_vals.length) :
    x_vals[i] = -10 + 20 * (i : ℚ) / 399 := by
  simp only [x_vals] at h ⊢
  rw [linspace_getElem _ _ _ _ h]
  norm_num

theorem x_vals_ne_nil : x_vals ≠ [] := by
  intro hnil
  have := x_vals_length
  rw [hnil] at this
  simp at this

theorem h_vals_length : h_vals.length = 20 := linspace_length 1 (1/100) 20

theorem h_vals_getElem (i : ℕ) (h : i < h_vals.length) :
    h_vals[i] = 1 - 99 * (i : ℚ) / 1900 := by
  simp only [h_vals] at h ⊢
  rw [linspace_getElem _ _ _ _ h]
  ring

theorem h_vals_one_mem : (1:ℚ) ∈ h_vals := by
  have h0 : (0:ℕ) < h_vals.length := by rw [h_vals_length]; omega
  rw [List.mem_iff_getElem]
  refine ⟨0, h0, ?_⟩
  rw [h_vals_getElem 0 h0]
  norm_num

theorem animationFrames_length (f : ℚ → ℚ) (a : ℚ) :
    (animationFrames f a).length = 20 := by
  simp only [animationFrames, List.length_map]
  exact h_vals_length

theorem animSlopes_length (f : ℚ → ℚ) (a : ℚ) : (animSlopes f a).length = 20 := by
  simp only [animSlopes, List.length_map]
  exact animationFrames_length f a

theorem animSlopes_getElem (f : ℚ → ℚ) (a : ℚ) (i : ℕ)
    (h : i < (animSlopes f a).length) :
    (animSlopes f a)[i]
      = (f (a + h_vals.get ⟨i, by simpa [animSlopes, animationFrames] using h⟩) - f a) /
        ((a + h_vals.get ⟨i, by simpa [animSlopes, animationFrames] using h⟩) - a) := by
  simp only [animSlopes, animationFrames, List.getElem_map, List.get_eq_getElem]

theorem traverseEval_length (funcs : String → ℚ → ℚ) (e : SymExpr) :
    ∀ (l : List ℚ) (ys : List NumVal), traverseEval funcs e l = some ys →
      ys.length = l.length := by
  intro l
  induction l with
  | nil =>
    intro ys h
    simp only [traverseEval, Option.some.injEq] at h
    rw [← h]
    rfl
  | cons xv rest ih =>
    intro ys h
    rw [traverseEval] at h
    cases hv : evalExpr funcs xv e with
    | none => rw [hv] at h; simp at h
    | some v =>
      cases ht : traverseEval funcs e rest with
      | none => rw [hv, ht] at h; simp at h
      | some vs =>
        rw [hv, ht] at h
        simp only [Option.some.injEq] at h
        rw [← h]
        simp only [List.length_cons]
        rw [ih vs ht]

theorem evalExpr_foreign_none (funcs : String → ℚ → ℚ) (xv : ℚ) (s : String)
    (hx : s ≠ "x") :
    ∀ e : SymExpr, s ∈ freeSymbols e → evalExpr funcs xv e = none := by
  intro e
  induction e with
  | const q => intro hs; simp [freeSymbols] at hs
  | var n =>
    intro hs
    simp only [freeSymbols, List.mem_singleton] at hs
    rw [hs] at hx
    simp [evalExpr, hx]
  | add a b iha ihb =>
    intro hs
    rw [freeSymbols, List.mem_append] at hs
    rcases hs with hmem | hmem
    · simp [evalExpr, iha hmem]
    · cases hA : evalExpr funcs xv a <;> simp [evalExpr, hA, ihb hmem]
  | sub a b iha ihb =>
    intro hs
    rw [freeSymbols, List.mem_append] at hs
    rcases hs with hmem | hmem
    · simp [evalExpr, iha hmem]
    · cases hA : evalExpr funcs xv a <;> simp [evalExpr, hA, ihb hmem]
  | mul a b iha ihb =>
    intro hs
    rw [freeSymbols, List.mem_append] at hs
    rcases hs with hmem | hmem
    · simp [evalExpr, iha hmem]
    · cases hA : evalExpr funcs xv a <;> simp [evalExpr, hA, ihb hmem]
  | div a b iha ihb =>
    intro hs
    rw [freeSymbols, List.mem_append] at hs
    rcases hs with hmem | hmem
    · simp [evalExpr, iha hmem]
    · cases hA : evalExpr funcs xv a <;> simp [evalExpr, hA, ihb hmem]
  | app fn a iha =>
    intro hs
    rw [freeSymbols] at hs
    simp [evalExpr, iha hs]

theorem traverseEval_none (funcs : String → ℚ → ℚ) (e : SymExpr) (l : List ℚ)
    (hl : l ≠ []) (hall : ∀ xv, evalExpr funcs xv e = none) :
    traverseEval funcs e l = none := by
  cases l with
  | nil => exact absurd rfl hl
  | cons xv rest =>
    rw [traverseEval, hall xv]

theorem traverseEval_var_x (funcs : String → ℚ → ℚ) :
    ∀ l : List ℚ, traverseEval funcs (SymExpr.var "x") l = some (l.map NumVal.fl) := by
  intro l
  induction l with
  | nil => rfl
  | cons xv rest ih =>
    rw [traverseEval, ih]
    simp [evalExpr]

theorem fC7R_hasDerivAt : HasDerivAt fC7R 0 0 := by
  have hg : HasDerivAt (fun t : ℝ => t ^ 2) (2 * (0:ℝ) ^ 1) 0 := hasDerivAt_pow 2 0
  have hs : HasDerivAt (fun t : ℝ => t - 1/2) 1 0 := (hasDerivAt_id 0).sub_const _
  have hh : HasDerivAt (fun t : ℝ => (t - 1/2) ^ 2) (2 * ((0:ℝ) - 1/2) ^ 1 * 1) 0 :=
    hs.pow 2
  have hmul := hg.mul hh
  have hfun : fC7R = fun t : ℝ => t ^ 2 * (t - 1/2) ^ 2 := rfl
  rw [hfun]
  convert hmul using 1
  norm_num

/-- C3: For every successfully parsed expression f and slider point a,
the constructed tangent line T satisfies T(a) = f(a) exactly, and between
any two distinct points its slope is exactly f'(a) (the value of the
numeric callable of the symbolic derivative at a), by construction. -/
theorem C3_tangent_line_exact (f fp : ℚ → ℚ) (a : ℚ) :
    tangent_line f fp a a = f a ∧
    ∀ x1 x2 : ℚ, x1 ≠ x2 →
      (tangent_line f fp a x1 - tangent_line f fp a x2) / (x1 - x2) = fp a := by
  constructor
  · simp [tangent_line]
  · intro x1 x2 hne
    have hsub : x1 - x2 ≠ 0 := sub_ne_zero.mpr hne
    field_simp [tangent_line]
    ring

/-- C3 witness: the tangent of q ↦ q * q at a = 3 with derivative
callable q ↦ 2 * q, evaluated between the points 1 and 0. -/
theorem C3_witness :
    tangent_line (fun q => q * q) (fun q => 2 * q) 3 3 = (fun q : ℚ => q * q) 3 ∧
    (tangent_line (fun q => q * q) (fun q => 2 * q) 3 1 -
      tangent_line (fun q => q * q) (fun q => 2 * q) 3 0) / (1 - 0)
      = (fun q : ℚ => 2 * q) 3 :=
  ⟨(C3_tangent_line_exact (fun q => q * q) (fun q => 2 * q) 3).1,
   (C3_tangent_line_exact (fun q => q * q) (fun q => 2 * q) 3).2 1 0 one_ne_zero⟩

/-- C4: the sample grid is a fixed ordered sequence of 400 evenly spaced
x-values spanning [-10, 10] (first entry -10, last entry 10, constant
step 20/399), and evaluating a parsed expression elementwise over it
yields exactly one numeric y-value per grid entry: a sequence of the
same length, 400. -/
theorem C4_grid_evaluation :
    x_vals.length = 400 ∧
    x_vals.get ⟨0, by rw [x_vals_length]; omega⟩ = -10 ∧
    x_vals.get ⟨399, by rw [x_vals_length]; omega⟩ = 10 ∧
    (∀ i (h : i + 1 < x_vals.length),
      x_vals.get ⟨i+1, h⟩ - x_vals.get ⟨i, by omega⟩ = 20 / 399) ∧
    ∀ (funcs : String → ℚ → ℚ) (e : SymExpr) (ys : List NumVal),
      y_vals funcs e = some ys → ys.length = 400 := by
  refine ⟨x_vals_length, ?_, ?_, ?_, ?_⟩
  · rw [List.get_eq_getElem, x_vals_getElem]
    norm_num
  · rw [List.get_eq_getElem, x_vals_getElem]
    norm_num
  · intro i h
    have h2 : i < x_vals.length := by omega
    rw [List.get_eq_getElem, List.get_eq_getElem,
      x_vals_getElem (i+1) h, x_vals_getElem i h2]
    push_cast
    ring
  · intro funcs e ys hg
    rw [y_vals] at hg
    rw [traverseEval_length funcs e x_vals ys hg]
    exact x_vals_length

/-- C4 witness: evaluating the identity expression over the grid yields a
400-element result. -/
theorem C4_witness : (x_vals.map NumVal.fl).length = 400 :=
  C4_grid_evaluation.2.2.2.2 (fun _ q => q) (SymExpr.var "x") (x_vals.map NumVal.fl)
    (traverseEval_var_x (fun _ q => q) x_vals)

/-- C6: when triggered, the animation performs a bounded synchronous loop
of exactly 20 iterations whose h values descend from 1.0 (first) to 0.01
(last), each iteration carrying a fixed delay of 0.2 = 1/5 time units,
and the frame sequence is a finite list (the loop terminates). -/
theorem C6_animation_loop (f : ℚ → ℚ) (a : ℚ) :
    (animationFrames f a).length = 20 ∧
    (animationFrames f a).map Frame.h = h_vals ∧
    (animationFrames f a).map Frame.delay = List.replicate 20 (1/5) ∧
    h_vals.get ⟨0, by rw [h_vals_length]; omega⟩ = 1 ∧
    h_vals.get ⟨19, by rw [h_vals_length]; omega⟩ = 1/100 ∧
    ∀ i (hi : i + 1 < h_vals.length),
      h_vals.get ⟨i+1, hi⟩ < h_vals.get ⟨i, by omega⟩ := by
  refine ⟨animationFrames_length f a, rfl, rfl, ?_, ?_, ?_⟩
  · rw [List.get_eq_getElem, h_vals_getElem]
    norm_num
  · rw [List.get_eq_getElem, h_vals_getElem]
    norm_num
  · intro i hi
    rw [List.get_eq_getElem, List.get_eq_getElem, h_vals_getElem, h_vals_getElem]
    push_cast
    linarith

/-- C6 witness: at the first step the h value strictly decreases. -/
theorem C6_witness :
    h_vals.get ⟨0 + 1, by simp [h_vals_length]⟩ <
      h_vals.get ⟨0, by simp [h_vals_length]⟩ :=
  (C6_animation_loop id 0).2.2.2.2.2 0 (by simp [h_vals_length])

/-- C8: an expression containing a free symbol other than the designated
variable x passes the guarded parse/differentiate/vectorize stage with no
caught error, and the failure surfaces downstream when the resulting
callable is evaluated over the numeric grid. -/
theorem C8_foreign_symbol (diffOracle : SymExpr → SymExpr)
    (funcs : String → ℚ → ℚ) (e : SymExpr) (s : String)
    (hs : s ∈ freeSymbols e) (hx : s ≠ "x") :
    parseStage diffOracle (Except.ok e) = Except.ok ⟨e, diffOracle e⟩ ∧
    y_vals funcs e = none := by
  refine ⟨rfl, ?_⟩
  exact traverseEval_none funcs e x_vals x_vals_ne_nil
    (fun xv => evalExpr_foreign_none funcs xv s hx e hs)

/-- C8 witness: the expression y * x parses (no caught error) and its
grid evaluation fails. -/
theorem C8_witness :
    parseStage id (Except.ok (SymExpr.mul (SymExpr.var "y") (SymExpr.var "x")))
      = Except.ok ⟨SymExpr.mul (SymExpr.var "y") (SymExpr.var "x"),
                   SymExpr.mul (SymExpr.var "y") (SymExpr.var "x")⟩ ∧
    y_vals (fun _ q => q) (SymExpr.mul (SymExpr.var "y") (SymExpr.var "x")) = none :=
  C8_foreign_symbol id (fun _ q => q)
    (SymExpr.mul (SymExpr.var "y") (SymExpr.var "x")) "y"
    (by simp [freeSymbols]) (by decide)

/-- C10: in the animation loop the denominator of the secant slope is
x1 - x0 = h, which is strictly positive (hence nonzero) for every one of
the step sizes in h_vals, so the division never divides by zero. -/
theorem C10_denominator_positive (a h : ℚ) (hh : h ∈ h_vals) :
    (a + h) - a = h ∧ 0 < h ∧ (a + h) - a ≠ 0 := by
  have hpos : 0 < h := by
    rw [List.mem_iff_getElem] at hh
    obtain ⟨i, hi, rfl⟩ := hh
    rw [h_vals_getElem i hi]
    have h19 : (i : ℚ) ≤ 19 := by
      have hle : i ≤ 19 := by rw [h_vals_length] at hi; omega
      exact_mod_cast hle
    linarith
  have heq : (a + h) - a = h := by ring
  refine ⟨heq, hpos, ?_⟩
  rw [heq]
  exact ne_of_gt hpos

/-- C10 witness: the first step size h = 1 at a = 0. -/
theorem C10_witness :
    ((0:ℚ) + 1) - 0 = 1 ∧ (0:ℚ) < 1 ∧ ((0:ℚ) + 1) - 0 ≠ 0 :=
  C10_denominator_positive 0 1 h_vals_one_mem

/-- C2: a parse failure is caught and surfaced as an inline error
message, and the rerun halts at that point: the rendered output is
exactly the pre-parse renders followed by the error message (no later
section renders), and the hosting process is not terminated. -/
theorem C2_parse_failure_halts (inp : AppInput) (msg : String)
    (hp : inp.parseRes = Except.error msg) :
    (runApp inp).renders
      = preRenders ++ [Render.parseErrorMsg ("Error parsing function: " ++ msg)] ∧
    (runApp inp).processTerminated = false := by
  have hps : parseStage id inp.parseRes
      = Except.error ("Error parsing function: " ++ msg) := by
    rw [hp]; rfl
  rw [runApp, hps]
  exact ⟨rfl, rfl⟩

/-- C2 witness: a concrete rerun whose parse fails with message "bad". -/
theorem C2_witness :
    (runApp exampleParseFailInput).renders
      = preRenders ++ [Render.parseErrorMsg ("Error parsing function: " ++ "bad")] ∧
    (runApp exampleParseFailInput).processTerminated = false :=
  C2_parse_failure_halts exampleParseFailInput "bad" rfl

/-- C5: a limit-computation failure is caught and surfaced as an inline
error message and is non-fatal: the animation and problem-set sections
(and the real-world section) still render within the same rerun, and the
hosting process survives. -/
theorem C5_limit_error_nonfatal (inp : AppInput) (e : SymExpr) (ys : List NumVal)
    (msg : String)
    (hp : inp.parseRes = Except.ok e)
    (hg : y_vals inp.funcs e = some ys)
    (hl : inp.limitOracle e inp.limitPoint = Except.error msg) :
    Render.limitErrorMsg ("Limit error: " ++ msg) ∈ (runApp inp).renders ∧
    Render.animationHeader ∈ (runApp inp).renders ∧
    Render.problemSetHeader ∈ (runApp inp).renders ∧
    Render.realWorldHeader ∈ (runApp inp).renders ∧
    (runApp inp).processTerminated = false := by
  have hps : parseStage id inp.parseRes = Except.ok ⟨e, e⟩ := by
    rw [hp]; rfl
  simp only [runApp, hps, hg, hl, limitSection]
  simp [preRenders, List.mem_append]

/-- C5 witness: a concrete rerun whose limit engine raises "osc". -/
theorem C5_witness :
    Render.limitErrorMsg ("Limit error: " ++ "osc")
      ∈ (runApp exampleLimitErrInput).renders ∧
    Render.animationHeader ∈ (runApp exampleLimitErrInput).renders ∧
    Render.problemSetHeader ∈ (runApp exampleLimitErrInput).renders ∧
    Render.realWorldHeader ∈ (runApp exampleLimitErrInput).renders ∧
    (runApp exampleLimitErrInput).processTerminated = false :=
  C5_limit_error_nonfatal exampleLimitErrInput (SymExpr.var "x")
    (x_vals.map NumVal.fl) "osc" rfl
    (traverseEval_var_x (fun _ q => q) x_vals) rfl

/-- C1: when the limit engine returns a pair (left, right), the
limit-exists verdict is rendered iff left equals right under exact
structural (symbolic) equality, and otherwise the does-not-exist verdict
is rendered. -/
theorem C1_limit_verdict_iff (inp : AppInput) (e : SymExpr) (ys : List NumVal)
    (l r : SymVal)
    (hp : inp.parseRes = Except.ok e)
    (hg : y_vals inp.funcs e = some ys)
    (hl : inp.limitOracle e inp.limitPoint = Except.ok (l, r)) :
    (Render.limitExists l ∈ (runApp inp).renders ↔ l = r) ∧
    (Render.limitNotExists ∈ (runApp inp).renders ↔ ¬ l = r) := by
  have hps : parseStage id inp.parseRes = Except.ok ⟨e, e⟩ := by
    rw [hp]; rfl
  simp only [runApp, hps, hg, hl, limitSection]
  by_cases hlr : l = r
  · cases hra : inp.runAnimation <;>
      simp [hlr, preRenders, List.mem_append, List.mem_map]
  · cases hra : inp.runAnimation <;>
      simp [hlr, preRenders, List.mem_append, List.mem_map]

/-- C1 witness: a concrete rerun whose limit engine returns the equal
pair (4, 4), so the exists verdict is rendered. -/
theorem C1_witness :
    (Render.limitExists (SymVal.fin (SymExpr.const 4))
        ∈ (runApp exampleLimitOkInput).renders
      ↔ SymVal.fin (SymExpr.const 4) = SymVal.fin (SymExpr.const 4)) ∧
    (Render.limitNotExists ∈ (runApp exampleLimitOkInput).renders
      ↔ ¬ SymVal.fin (SymExpr.const 4) = SymVal.fin (SymExpr.const 4)) :=
  C1_limit_verdict_iff exampleLimitOkInput (SymExpr.var "x")
    (x_vals.map NumVal.fl) (SymVal.fin (SymExpr.const 4))
    (SymVal.fin (SymExpr.const 4)) rfl
    (traverseEval_var_x (fun _ q => q) x_vals) rfl

/-- C7 counterexample: for the smooth function fC7 : t ↦ t^2 (t - 1/2)^2
with tangent point a = 0 (whose derivative at 0 is 0, witnessed over the
reals), the animation's h value strictly shrinks from iteration 10 to
iteration 11, yet the distance of the secant slope to f'(0) = 0 strictly
grows, so the 20 secant slopes do not converge monotonically to f'(a). -/
theorem C7_counterexample :
    HasDerivAt fC7R 0 0 ∧
    h_vals.getD 11 0 < h_vals.getD 10 0 ∧
    |(animSlopes fC7 0).getD 10 0 - 0| < |(animSlopes fC7 0).getD 11 0 - 0| := by
  have hl10 : (10:ℕ) < h_vals.length := by rw [h_vals_length]; omega
  have hl11 : (11:ℕ) < h_vals.length := by rw [h_vals_length]; omega
  have hs10 : (10:ℕ) < (animSlopes fC7 0).length := by rw [animSlopes_length]; omega
  have hs11 : (11:ℕ) < (animSlopes fC7 0).length := by rw [animSlopes_length]; omega
  refine ⟨fC7R_hasDerivAt, ?_, ?_⟩
  · rw [List.getD_eq_getElem _ _ hl11, List.getD_eq_getElem _ _ hl10,
      h_vals_getElem, h_vals_getElem]
    norm_num
  · rw [List.getD_eq_getElem _ _ hs10, List.getD_eq_getElem _ _ hs11,
      animSlopes_getElem, animSlopes_getElem, List.get_eq_getElem,
      List.get_eq_getElem, h_vals_getElem, h_vals_getElem]
    have e10 : (fC7 (0 + (1 - 99 * ((10:ℕ):ℚ) / 1900)) - fC7 0) /
        ((0 + (1 - 99 * ((10:ℕ):ℚ) / 1900)) - 0) = 182/857375 := by
      norm_num [fC7]
    have e11 : (fC7 (0 + (1 - 99 * ((11:ℕ):ℚ) / 1900)) - fC7 0) /
        ((0 + (1 - 99 * ((11:ℕ):ℚ) / 1900)) - 0) = 15669331/6859000000 := by
      norm_num [fC7]
    rw [e10, e11, sub_zero, sub_zero,
      abs_of_nonneg (by norm_num), abs_of_nonneg (by norm_num)]
    norm_num

/-- C7 (amended): the animation's secant slopes follow the difference
quotient (f(a+h) - f(a)) / ((a+h) - a) over the descending h values, and
for any function differentiable at a the secant slope tends to the
derivative as h tends to 0 from the right; the convergence need not be
monotone over the 20 steps. -/
theorem C7_secant_slopes_converge (f : ℚ → ℚ) (aq : ℚ) (g : ℝ → ℝ) (a d : ℝ)
    (hg : HasDerivAt g d a) :
    animSlopes f aq
      = h_vals.map (fun h => (f (aq + h) - f aq) / ((aq + h) - aq)) ∧
    Filter.Tendsto (secantSlope g a) (nhdsWithin 0 (Set.Ioi 0)) (nhds d) := by
  constructor
  · rfl
  · have h0 := hasDerivAt_iff_tendsto_slope_zero.mp hg
    have hle : nhdsWithin (0:ℝ) (Set.Ioi 0) ≤ nhdsWithin (0:ℝ) ({0}ᶜ) := by
      apply nhdsWithin_mono
      intro t ht
      simp only [Set.mem_compl_iff, Set.mem_singleton_iff]
      exact ne_of_gt ht
    have h1 := h0.mono_left hle
    apply h1.congr'
    filter_upwards [self_mem_nhdsWithin] with t ht
    simp only [secantSlope, smul_eq_mul, add_sub_cancel_left]
    rw [div_eq_inv_mul]

/-- C7 witness: for the identity function at a = 0 (derivative 1), the
secant slope tends to 1 as h tends to 0 from the right. -/
theorem C7_witness :
    Filter.Tendsto (secantSlope (fun x => x) 0) (nhdsWithin 0 (Set.Ioi 0)) (nhds 1) :=
  (C7_secant_slopes_converge id 0 (fun x => x) 0 1 (hasDerivAt_id 0)).2

/-- C9 counterexample: the launcher's resolved script path does not
depend on the launcher's own location: two different launcher directories
resolve to the same hard-coded absolute path. -/
theorem C9_counterexample :
    (runLauncher "/opt/elsewhere").appPath = (runLauncher "/tmp/other").appPath ∧
    (runLauncher "/opt/elsewhere").appPath = mainScriptArg := by
  constructor <;> decide

/-- C9 (amended): for any launcher location, the launcher resolves the
main script's path to the hard-coded absolute path (path joining discards
the location-relative component because the second component is
absolute), starts the hosting server process with that path, and opens
the local browser endpoint; it computes nothing else. -/
theorem C9_launcher_effects (d : String) :
    runLauncher d
      = ⟨mainScriptArg, "streamlit run \"" ++ mainScriptArg ++ "\"",
         "http://localhost:8501"⟩ := by
  have h : isAbsolutePath mainScriptArg = true := by decide
  simp [runLauncher, osPathJoin, h]
